import Mathlib

/-!
# Verification of `scripts/export-conversation.py`

A shallow embedding of the conversation-export script.  Python strings are
Lean `String`s manipulated through their underlying character lists, Python
dictionaries parsed from JSON are association lists `List (String × Json)`,
and the in-place mutation performed by `extract_content`
(`message.pop('_msg_type', ...)`) is made explicit by returning the updated
record next to the extracted text.  A Python exception escaping a function is
modelled as `Except.error ()`.
-/

namespace ClaudeHistory

/-- Python's whitespace test, used by `str.strip()`. -/
def ws (c : Char) : Bool := c.isWhitespace

/-- Python `str.strip()` at the character-list level: drop whitespace at both ends. -/
def stripL (l : List Char) : List Char :=
  ((l.dropWhile ws).reverse.dropWhile ws).reverse

/-- Python `str.split(sep)` for a one-character separator, at the character-list level. -/
def splitCh (c : Char) : List Char → List (List Char)
  | [] => [[]]
  | a :: rest =>
    if a = c then [] :: splitCh c rest
    else
      match splitCh c rest with
      | [] => [[a]]
      | h :: t => (a :: h) :: t

/-- Python `s.strip()`. -/
def pyStrip (s : String) : String := ⟨stripL s.data⟩

/-- Python `s.split(c)` for a one-character separator. -/
def pySplit (c : Char) (s : String) : List String := (splitCh c s.data).map fun l => ⟨l⟩

/-- Python `s.lower()` (ASCII case folding, which covers every keyword in the script). -/
def pyLower (s : String) : String := ⟨s.data.map Char.toLower⟩

/-- Python slicing `s[:n]` for `n ≥ 0`. -/
def pyTake (n : Nat) (s : String) : String := ⟨s.data.take n⟩

/-- Python slicing `s[a:b]` for `0 ≤ a ≤ b`. -/
def pySlice (a b : Nat) (s : String) : String := ⟨(s.data.drop a).take (b - a)⟩

/-- Character-list prefix test. -/
def isPrefixL : List Char → List Char → Bool
  | [], _ => true
  | _ :: _, [] => false
  | a :: s, b :: t => a == b && isPrefixL s t

/-- Character-list contiguous-substring test. -/
def isSubstrL (sub : List Char) : List Char → Bool
  | [] => sub.isEmpty
  | b :: t => isPrefixL sub (b :: t) || isSubstrL sub t

/-- Python `s.startswith(p)`. -/
def pyStartsWith (s p : String) : Bool := isPrefixL p.data s.data

/-- Python's substring test `sub in s`. -/
def pyIn (sub s : String) : Bool := isSubstrL sub.data s.data

/-- The lines of a marker file, i.e. `s.split('\n')`. -/
def pyLines (s : String) : List String := pySplit '\n' s

/-- JSON values as decoded by `json.loads` (the script never sees floats). -/
inductive Json where
  | null
  | bool (b : Bool)
  | num (n : Int)
  | str (s : String)
  | arr (items : List Json)
  | obj (fields : List (String × Json))

/-- A decoded Python dictionary.  `json.loads` never produces duplicate keys,
so one binding per key is assumed throughout. -/
abbrev Record := List (String × Json)

/-- Python `d.get(key)` and `d.get(key, default)` via `Option`. -/
def objGet (fields : Record) (key : String) : Option Json :=
  match fields with
  | [] => none
  | (k, v) :: rest => if k = key then some v else objGet rest key

/-- Python `d.pop(key, ...)`: remove the binding of `key` (a dict holds at most one). -/
def popKey (fields : Record) (key : String) : Record :=
  fields.filter fun kv => kv.1 != key

/-- Python `d[key] = v`: overwrite in place when present, append otherwise. -/
def setKey (fields : Record) (key : String) (v : Json) : Record :=
  match fields with
  | [] => [(key, v)]
  | (k, w) :: rest => if k = key then (k, v) :: rest else (k, w) :: setKey rest key v

/-- Test whether an optional JSON value is a given string
(Python `x == 'lit'` after a `.get`). -/
def isStrV (v : Option Json) (s : String) : Bool :=
  match v with
  | some (.str t) => t == s
  | _ => false

/-- One physical line of the log source, as far as `parse_transcript` can
observe it: blank after stripping, rejected by `json.loads`, or decoded to a
JSON value. -/
inductive RawLine where
  | blank
  | malformed
  | decoded (data : Json)

/-- The line loop of `parse_transcript`.  `none` models an exception other
than `json.JSONDecodeError` escaping the loop body (`data.get` on a non-dict,
or `msg_data['_msg_type'] = ...` on a non-dict payload); it is caught by the
function's outer `except Exception` handler. -/
def parse_transcript_go : List Record → List RawLine → Option (List Record)
  | messages, [] => some messages
  | messages, line :: rest =>
    match line with
    | .blank => parse_transcript_go messages rest
    | .malformed => parse_transcript_go messages rest
    | .decoded data =>
      match data with
      | .obj fields =>
        match objGet fields "type" with
        | some (.str msg_type) =>
          if msg_type = "user" || msg_type = "assistant" then
            match objGet fields "message" with
            | some (.obj msg_data) =>
              parse_transcript_go (messages ++ [setKey msg_data "_msg_type" (.str msg_type)]) rest
            | some _ => none
            | none => parse_transcript_go messages rest
          else if msg_type = "tool_use" || msg_type = "tool_result" then
            parse_transcript_go (messages ++ [fields]) rest
          else
            parse_transcript_go messages rest
        | _ => parse_transcript_go messages rest
      | _ => none

/-- Model of `parse_transcript`: run the line loop; any escaping exception is caught
and turned into the empty list. -/
def parse_transcript (lines : List RawLine) : List Record :=
  match parse_transcript_go [] lines with
  | some messages => messages
  | none => []

/-- Spec-side description of one line's contribution to the parsed sequence
(used to state C1). -/
def lineRecord : RawLine → Option Record
  | .decoded (.obj fields) =>
    match objGet fields "type" with
    | some (.str msg_type) =>
      if msg_type = "user" || msg_type = "assistant" then
        match objGet fields "message" with
        | some (.obj msg_data) => some (setKey msg_data "_msg_type" (.str msg_type))
        | _ => none
      else if msg_type = "tool_use" || msg_type = "tool_result" then
        some fields
      else none
    | _ => none
  | _ => none

/-- Spec-side: lines whose processing cannot raise out of the decode loop. -/
def okLine : RawLine → Bool
  | .blank => true
  | .malformed => true
  | .decoded (.obj fields) =>
    match objGet fields "type" with
    | some (.str msg_type) =>
      if msg_type = "user" || msg_type = "assistant" then
        match objGet fields "message" with
        | some (.obj _) => true
        | some _ => false
        | none => true
      else true
    | _ => true
  | .decoded _ => false

/-- One hexadecimal digit, for the control-character escapes of `json.dumps`. -/
def hexDigit (n : Nat) : String :=
  String.singleton (Char.ofNat (if n < 10 then 48 + n else 87 + n))

/-- Escaping of one character inside a `json.dumps` string literal
(`ensure_ascii=False`). -/
def dumpsEscapeChar (c : Char) : String :=
  if c = '"' then "\\\""
  else if c = '\\' then "\\\\"
  else if c = '\n' then "\\n"
  else if c = '\t' then "\\t"
  else if c = '\r' then "\\r"
  else if c.toNat < 32 then "\\u00" ++ hexDigit (c.toNat / 16) ++ hexDigit (c.toNat % 16)
  else String.singleton c

/-- A `json.dumps` string literal. -/
def dumpsStr (s : String) : String :=
  "\"" ++ String.join (s.data.map dumpsEscapeChar) ++ "\""

/-- A run of `n` spaces of indentation. -/
def pad (n : Nat) : String := String.mk (List.replicate n ' ')

/-- Python `json.dumps(v, indent=2, ensure_ascii=False)`, rendered at indentation
level `lvl` (the script calls it at top level, `lvl = 0`). -/
def jsonDumps (lvl : Nat) : Json → String
  | .null => "null"
  | .bool true => "true"
  | .bool false => "false"
  | .num n => toString n
  | .str s => dumpsStr s
  | .arr [] => "[]"
  | .arr (i :: is) =>
    "[\n" ++
      String.intercalate ",\n"
        (((i :: is).attach).map fun x => pad (lvl + 2) ++ jsonDumps (lvl + 2) x.1) ++
      "\n" ++ pad lvl ++ "]"
  | .obj [] => "\x7b\x7d"
  | .obj (f :: fs) =>
    "\x7b\n" ++
      String.intercalate ",\n"
        (((f :: fs).attach).map fun kv =>
          pad (lvl + 2) ++ dumpsStr kv.1.1 ++ ": " ++ jsonDumps (lvl + 2) kv.1.2) ++
      "\n" ++ pad lvl ++ "\x7d"
termination_by v => sizeOf v
decreasing_by
  · simp_wf
    have := List.sizeOf_lt_of_mem x.2
    simp at this
    omega
  · simp_wf
    have h1 := List.sizeOf_lt_of_mem kv.2
    have h2 : sizeOf kv.1.2 < sizeOf kv.1 := by
      obtain ⟨a, b⟩ := kv.1
      simp only [Prod.mk.sizeOf_spec]
      omega
    simp at h1
    omega

/-- Python `repr` of a decoded JSON value (strings single-quoted, containers
in Python literal syntax).  Only reachable through `str()` on non-string
values, which the verified claims never exercise. -/
def pyRepr : Json → String
  | .null => "None"
  | .bool true => "True"
  | .bool false => "False"
  | .num n => toString n
  | .str s => "\x27" ++ s ++ "\x27"
  | .arr items =>
    "[" ++ String.intercalate ", " ((items.attach).map fun x => pyRepr x.1) ++ "]"
  | .obj fields =>
    "\x7b" ++
      String.intercalate ", "
        ((fields.attach).map fun kv => "\x27" ++ kv.1.1 ++ "\x27: " ++ pyRepr kv.1.2) ++
      "\x7d"
termination_by v => sizeOf v
decreasing_by
  · simp_wf
    have := List.sizeOf_lt_of_mem x.2
    omega
  · simp_wf
    have h1 := List.sizeOf_lt_of_mem kv.2
    have h2 : sizeOf kv.1.2 < sizeOf kv.1 := by
      obtain ⟨a, b⟩ := kv.1
      simp only [Prod.mk.sizeOf_spec]
      omega
    omega

/-- Python `str()` as used by f-strings and `str(content)`. -/
def pyStr : Json → String
  | .str s => s
  | v => pyRepr v

/-- Test `block.get('type') == t` for a decoded dictionary. -/
def typeIs (bf : Record) (t : String) : Bool := isStrV (objGet bf "type") t

/-- Python truthiness of an extraction result (`None` and `''` are falsy). -/
def truthyS : Option String → Bool
  | none => false
  | some s => s != ""

/-- The string elements of a `texts` list; `none` when some element is not a
string. -/
def toStrList : List Json → Option (List String)
  | [] => some []
  | .str s :: rest => (toStrList rest).map fun ss => s :: ss
  | _ :: _ => none

/-- Python `'\n'.join(texts)`: raises `TypeError` (modelled as `Except.error ()`)
when some accumulated element is not a string. -/
def pyJoinNl (items : List Json) : Except Unit String :=
  match toStrList items with
  | some ss => .ok (String.intercalate "\n" ss)
  | none => .error ()

/-- Fragments contributed by one block of a user message's content list.
Elements stay raw JSON values because `texts.append(block.get('text', ''))`
can push a non-string, which only fails later at `'\n'.join`; a non-dict
`source` on an image block raises immediately at `.get('media_type', ...)`. -/
def userBlockTexts : Json → Except Unit (List Json)
  | .obj bf =>
    if typeIs bf "text" then .ok [(objGet bf "text").getD (.str "")]
    else if typeIs bf "image" then
      match (objGet bf "source").getD (.obj []) with
      | .obj sf =>
        .ok [.str ("[Image: " ++ pyStr ((objGet sf "media_type").getD (.str "unknown")) ++ "]")]
      | _ => .error ()
    else if typeIs bf "tool_result" then
      let tool_name := (objGet bf "tool_use_id").getD (.str "unknown")
      let base : List Json := [.str ("[Tool Result: " ++ pyStr tool_name ++ "]")]
      match objGet bf "content" with
      | some (.str s) => .ok (base ++ [.str s])
      | some (.arr items) =>
        .ok (base ++ items.filterMap fun item =>
          match item with
          | .obj itf =>
            if typeIs itf "text" then some ((objGet itf "text").getD (.str "")) else none
          | _ => none)
      | some _ => .ok base
      | none => .ok base
    else .ok []
  | .str s => .ok [.str s]
  | _ => .ok []

/-- Accumulate the fragments of all blocks, propagating a raised exception. -/
def collectTexts (f : Json → Except Unit (List Json)) : List Json → Except Unit (List Json)
  | [] => .ok []
  | b :: rest => do
    let ts ← f b
    let rest' ← collectTexts f rest
    .ok (ts ++ rest')

/-- The `user` branch of `extract_content` (record already popped). -/
def userContent (message : Record) : Except Unit (Option String) :=
  match (objGet message "content").getD (.str "") with
  | .arr blocks => do
    let texts ← collectTexts userBlockTexts blocks
    let joined ← pyJoinNl texts
    .ok (some (pyStrip joined))
  | c => .ok (some (pyStr c))

/-- Fragments contributed by one block of an assistant message's content. -/
def assistantBlockTexts : Json → List Json
  | .obj bf =>
    if typeIs bf "text" then [(objGet bf "text").getD (.str "")]
    else if typeIs bf "tool_use" then
      let tool_name := (objGet bf "name").getD (.str "unknown")
      [.str ("\n**Tool Use**: `" ++ pyStr tool_name ++ "`\n")] ++
        (match objGet bf "input" with
         | some (.obj ifields) =>
           if ifields.isEmpty then []
           else [.str ("```json\n" ++ jsonDumps 0 (.obj ifields) ++ "\n```\n")]
         | _ => [])
    else []
  | .str s => [.str s]
  | _ => []

/-- The `assistant` branch of `extract_content`. -/
def assistantContent (message : Record) : Except Unit (Option String) :=
  match (objGet message "content").getD (.arr []) with
  | .arr blocks => do
    let joined ← pyJoinNl (blocks.foldr (fun b acc => assistantBlockTexts b ++ acc) [])
    .ok (some (pyStrip joined))
  | c => .ok (some (pyStr c))

/-- The standalone `tool_use` branch of `extract_content`. -/
def toolUseContent (message : Record) : String :=
  let tool_name := (objGet message "name").getD (.str "unknown")
  let result := "**Tool Use**: `" ++ pyStr tool_name ++ "`\n"
  match objGet message "input" with
  | some (.obj ifields) =>
    if ifields.isEmpty then result
    else result ++ "```json\n" ++ jsonDumps 0 (.obj ifields) ++ "\n```\n"
  | _ => result

/-- The standalone `tool_result` branch of `extract_content`. -/
def toolResultContent (message : Record) : String :=
  let tool_use_id := (objGet message "tool_use_id").getD (.str "unknown")
  let base := "**Tool Result**: `" ++ pyStr tool_use_id ++ "`\n"
  match objGet message "content" with
  | some (.str s) => base ++ "```\n" ++ s ++ "\n```\n"
  | some (.arr items) =>
    items.foldl (fun acc item =>
      match item with
      | .obj itf =>
        if typeIs itf "text" then
          acc ++ "```\n" ++ pyStr ((objGet itf "text").getD (.str "")) ++ "\n```\n"
        else acc
      | _ => acc) base
  | some _ => base
  | none => base

/-- Dispatch of `extract_content` once `_msg_type` has been popped. -/
def extractBody (msg_type : Json) (message : Record) : Except Unit (Option String) :=
  if isStrV (some msg_type) "user" || isStrV (objGet message "role") "user" then
    userContent message
  else if isStrV (some msg_type) "assistant" || isStrV (objGet message "role") "assistant" then
    assistantContent message
  else if isStrV (objGet message "type") "tool_use" then
    .ok (some (toolUseContent message))
  else if isStrV (objGet message "type") "tool_result" then
    .ok (some (toolResultContent message))
  else
    .ok none

/-- Model of `extract_content`: pops the reader-added `_msg_type` marker — an in-place
mutation of the record, made explicit by returning the updated record — and
renders the message according to its kind. -/
def extract_content (message : Record) : Except Unit (Option String) × Record :=
  let msg_type := (objGet message "_msg_type").getD ((objGet message "role").getD (.str ""))
  let message := popKey message "_msg_type"
  (extractBody msg_type message, message)

/-- The fixed non-conversational markers skipped by title inference. -/
def skip_prefixes : List String :=
  ["[Tool Result:", "[Tool Use:", "[Request interrupted", "[Image:"]

/-- Model of `generate_title`: scan for the first meaningful user message.  The scan
calls `extract_content`, so visited user-role records lose their `_msg_type`
marker (threaded through the second component) and an extraction error
propagates. -/
def generate_title : List Record → String → Except Unit String × List Record
  | [], session_id => (.ok ("Conversation " ++ pyTake 8 session_id), [])
  | msg :: rest, session_id =>
    if isStrV (objGet msg "role") "user" then
      match extract_content msg with
      | (.error e, msg') => (.error e, msg' :: rest)
      | (.ok content, msg') =>
        if truthyS content then
          let c := pyStrip (content.getD "")
          if skip_prefixes.any (fun p => pyStartsWith c p) then
            let r := generate_title rest session_id
            (r.1, msg' :: r.2)
          else if c.length < 20 then
            let r := generate_title rest session_id
            (r.1, msg' :: r.2)
          else
            let first_line := pyStrip ((pySplit '\n' c).headD "")
            if 50 < first_line.length then
              (.ok (pyTake 47 first_line ++ "..."), msg' :: rest)
            else if first_line != "" then
              (.ok first_line, msg' :: rest)
            else
              let r := generate_title rest session_id
              (r.1, msg' :: r.2)
        else
          let r := generate_title rest session_id
          (r.1, msg' :: r.2)
    else
      let r := generate_title rest session_id
      (r.1, msg :: r.2)

/-- The fixed keyword-to-tag table, in source order. -/
def keywords : List (String × String) :=
  [("bug", "bug-fix"), ("fix", "bug-fix"), ("feature", "feature-development"),
   ("implement", "feature-development"), ("refactor", "refactoring"), ("test", "testing"),
   ("review", "code-review"), ("deploy", "deployment"), ("debug", "debugging"),
   ("api", "api"), ("documentation", "documentation"), ("help", "help"),
   ("explain", "explanation")]

/-- The `all_text` accumulation loop of `extract_tags`, threading the records'
mutation and propagating extraction errors. -/
def extract_tags_go : String → List Record → Except Unit String × List Record
  | all_text, [] => (.ok all_text, [])
  | all_text, msg :: rest =>
    match extract_content msg with
    | (.error e, msg') => (.error e, msg' :: rest)
    | (.ok content, msg') =>
      let all_text' :=
        if truthyS content then all_text ++ pyLower (content.getD "") ++ " " else all_text
      let r := extract_tags_go all_text' rest
      (r.1, msg' :: r.2)

/-- The keyword scan of `extract_tags`. -/
def tagsLoop (all_text : String) : List String :=
  keywords.foldl (fun tags kv =>
    if pyIn kv.1 all_text && !(tags.contains kv.2) then tags ++ [kv.2] else tags) []

/-- Model of `extract_tags`: concatenate all lower-cased content, scan the keyword
table, cap the result at 5 tags. -/
def extract_tags (messages : List Record) : Except Unit (List String) × List Record :=
  match extract_tags_go "" messages with
  | (.ok all_text, messages') => (.ok ((tagsLoop all_text).take 5), messages')
  | (.error e, messages') => (.error e, messages')

/-- The lower-cased concatenation of all extractable content. -/
def allTextOf (messages : List Record) : Except Unit String :=
  (extract_tags_go "" messages).1

/-- The metadata dictionary assembled by `main` before rendering. -/
structure Metadata where
  title : String
  date : String
  tags : List String
  session_id : String
  cwd : String
  message_count : Nat

/-- Python truthiness of a JSON value (`msg.get('role') or msg.get('type')`). -/
def pyTruthy : Json → Bool
  | .null => false
  | .bool b => b
  | .num n => n != 0
  | .str s => s != ""
  | .arr items => !items.isEmpty
  | .obj fields => !fields.isEmpty

/-- Python `json.dumps` of a list of strings without `indent` (used for the `tags:`
frontmatter line). -/
def dumpsCompact (tags : List String) : String :=
  "[" ++ String.intercalate ", " (tags.map dumpsStr) ++ "]"

/-- Concatenation of a list of strings (used to state C4). -/
def joinAll : List String → String
  | [] => ""
  | s :: rest => s ++ joinAll rest

/-- A standalone `tool_result` record whose content is a plain string. -/
def toolResultStrRec (id s : String) : Record :=
  [("type", Json.str "tool_result"), ("tool_use_id", Json.str id), ("content", Json.str s)]

/-- A standalone `tool_result` record whose content is a list of text
sub-blocks. -/
def toolResultBlocksRec (id : String) (texts : List String) : Record :=
  [("type", Json.str "tool_result"), ("tool_use_id", Json.str id),
   ("content", Json.arr (texts.map fun t =>
     Json.obj [("type", Json.str "text"), ("text", Json.str t)]))]

/-- The message loop of `to_markdown`: group consecutive same-role messages
into sections, flushing on role change. -/
def to_markdown_go :
    List String → Option String → List String → List Record →
      Except Unit (List String × List String) × List Record
  | output, _, current_content, [] => (.ok (output, current_content), [])
  | output, current_role, current_content, msg :: rest =>
    let role_value : Option Json :=
      match objGet msg "role" with
      | some v => if pyTruthy v then some v else objGet msg "type"
      | none => objGet msg "type"
    let role : Option String :=
      if isStrV role_value "user" then some "## User"
      else if isStrV role_value "assistant" then some "## Claude"
      else if isStrV role_value "tool_use" then some "## Tool Use"
      else if isStrV role_value "tool_result" then some "## Tool Result"
      else none
    match role with
    | none =>
      let r := to_markdown_go output current_role current_content rest
      (r.1, msg :: r.2)
    | some role =>
      match extract_content msg with
      | (.error e, msg') => (.error e, msg' :: rest)
      | (.ok content, msg') =>
        if !truthyS content then
          let r := to_markdown_go output current_role current_content rest
          (r.1, msg' :: r.2)
        else
          let flush := current_role.isSome && current_role != some role
          let output' :=
            if flush && !current_content.isEmpty then
              output ++ [String.intercalate "\n" current_content, "", "---", ""]
            else output
          let cc0 := if flush then [] else current_content
          let cc1 := if cc0.isEmpty then [role, ""] else cc0
          let r := to_markdown_go output' (some role) (cc1 ++ [content.getD ""]) rest
          (r.1, msg' :: r.2)

/-- The YAML frontmatter and summary header `to_markdown` emits before the
message sections. -/
def to_markdown_header (metadata : Metadata) : List String :=
  let frontmatter :=
    ["---", "title: \"" ++ metadata.title ++ "\"", "date: " ++ metadata.date,
     "tags: " ++ dumpsCompact metadata.tags, "session_id: " ++ metadata.session_id] ++
    (if metadata.cwd != "" then ["project: " ++ metadata.cwd] else []) ++ ["---"]
  [String.intercalate "\n" frontmatter, "", "# " ++ metadata.title, "",
   "**Session ID**: `" ++ metadata.session_id ++ "`",
   "**Date**: " ++ metadata.date,
   "**Messages**: " ++ toString metadata.message_count] ++
  (if !metadata.tags.isEmpty then
    ["**Tags**: " ++ String.intercalate ", " metadata.tags] else []) ++
  ["", "---", ""]

/-- Model of `to_markdown`: YAML frontmatter, summary header, then the grouped message
sections. -/
def to_markdown (messages : List Record) (metadata : Metadata) :
    Except Unit String × List Record :=
  match to_markdown_go (to_markdown_header metadata) none [] messages with
  | (.ok (output', current_content), messages') =>
    let final :=
      if !current_content.isEmpty then
        output' ++ [String.intercalate "\n" current_content]
      else output'
    (.ok (String.intercalate "\n" final), messages')
  | (.error e, messages') => (.error e, messages')

/-- The fixed header materialized on the first `update_index` call. -/
def initial_index : List String :=
  ["# Conversation Index\n", "\n",
   "This index contains all exported Claude Code conversations.\n", "\n",
   "## Conversations\n", "\n"]

/-- The entry line `update_index` builds for one document. -/
def indexEntry (session_id : String) (metadata : Metadata) : String :=
  let date := metadata.date
  let rel_path := pySlice 0 4 date ++ "/" ++ pySlice 5 7 date ++ "-" ++ pySlice 8 10 date ++
    "/" ++ session_id ++ ".md"
  let entry := "- [" ++ date ++ "] [" ++ metadata.title ++ "](" ++ rel_path ++ ")"
  (if !metadata.tags.isEmpty then
    entry ++ " - " ++ String.intercalate ", " metadata.tags
  else entry) ++ "\n"

/-- Index of the first line containing the `'## Conversations'` marker. -/
def findMarkerIdx : List String → Option Nat
  | [] => none
  | line :: rest =>
    if pyIn "## Conversations" line then some 0
    else (findMarkerIdx rest).map (· + 1)

/-- Python `list.insert(pos, x)` for `pos ≥ 0` (Python clamps `pos` to the length). -/
def pyInsertAt (l : List α) (pos : Nat) (x : α) : List α :=
  l.take pos ++ x :: l.drop pos

/-- Model of `update_index`: create the fixed header when the file is absent, then
insert the new entry two lines below the first marker line (at the end when
no marker is found). -/
def update_index (existing : Option (List String)) (session_id : String)
    (metadata : Metadata) : List String :=
  let index_content :=
    match existing with
    | none => initial_index
    | some c => c
  let entry := indexEntry session_id metadata
  let insert_pos :=
    match findMarkerIdx index_content with
    | some i => i + 2
    | none => index_content.length
  pyInsertAt index_content insert_pos entry

/-- The title/tags/markdown stage of `main`, threading the records' mutation
in call order; an uncaught exception anywhere aborts the invocation. -/
def pipelineResult (messages : List Record) (session_id cwd today : String) :
    Except Unit (String × Metadata × List Record) :=
  let r1 := generate_title messages session_id
  match r1.1 with
  | .error e => .error e
  | .ok title =>
    let r2 := extract_tags r1.2
    match r2.1 with
    | .error e => .error e
    | .ok tags =>
      let metadata : Metadata :=
        ⟨title, today, tags, session_id, cwd, messages.length⟩
      let r3 := to_markdown r2.2 metadata
      match r3.1 with
      | .error e => .error e
      | .ok markdown => .ok (markdown, metadata, r3.2)

/-- The decoded stdin payload of triggered (hook) mode; absent keys default
to the empty string. -/
structure HookData where
  session_id : String
  transcript_path : String
  cwd : String

/-- The filesystem state triggered mode can observe: the marker file's
content (if it exists), path existence, the transcript's lines, and the
current date. -/
structure HookWorld where
  stateContent : Option String
  pathExists : String → Bool
  transcriptLines : List RawLine
  today : String

/-- What one triggered-mode invocation did. -/
structure HookOutcome where
  exitCode : Nat
  ranPipeline : Bool
  wroteDocument : Bool
  stateAfter : Option String

/-- Appending one identifier line to the marker file (creating it). -/
def appendState (state : Option String) (session_id : String) : String :=
  state.getD "" ++ session_id ++ "\n"

/-- Triggered (hook) mode of `main`: `none` payload models a JSON decode
failure on stdin.  An uncaught pipeline exception kills the interpreter with
exit code 1 before the marker file is appended. -/
def triggeredMain (payload : Option HookData) (w : HookWorld) : HookOutcome :=
  match payload with
  | none => ⟨1, false, false, w.stateContent⟩
  | some hd =>
    if hd.session_id == "" || hd.cwd == "" then ⟨1, false, false, w.stateContent⟩
    else if (match w.stateContent with
             | some content => pyIn hd.session_id content
             | none => false) then
      ⟨0, false, false, w.stateContent⟩
    else if hd.transcript_path != "" && w.pathExists hd.transcript_path then
      let messages := parse_transcript w.transcriptLines
      if !messages.isEmpty then
        match pipelineResult messages hd.session_id hd.cwd w.today with
        | .ok _ => ⟨0, true, true, some (appendState w.stateContent hd.session_id)⟩
        | .error _ => ⟨1, true, false, w.stateContent⟩
      else ⟨0, true, false, some (appendState w.stateContent hd.session_id)⟩
    else ⟨0, false, false, some (appendState w.stateContent hd.session_id)⟩

/-- The argparse arguments of direct (CLI) mode; `none` means the flag was
not supplied. -/
structure DirectArgs where
  session_id : Option String
  transcript : Option String
  output : Option String
  cwd : Option String

/-- Direct (CLI) mode of `main`: argparse exits with code 2 when a required
argument is missing; an empty parse or an uncaught pipeline exception yields
exit code 1. -/
def directMain (args : DirectArgs) (lines : List RawLine) (today : String) : Nat :=
  match args.session_id, args.transcript, args.output with
  | some sid, some _, some _ =>
    let messages := parse_transcript lines
    if messages.isEmpty then 1
    else
      match pipelineResult messages sid (args.cwd.getD "") today with
      | .ok _ => 0
      | .error _ => 1
  | _, _, _ => 2

/-- Spec-side (C5): first-occurrence deduplication with an accumulator,
as performed by the tag loop's `tag not in tags` guard. -/
def dedupKeepFirst (acc : List String) : List String → List String
  | [] => acc
  | t :: rest =>
    if acc.contains t then dedupKeepFirst acc rest
    else dedupKeepFirst (acc ++ [t]) rest

/-- Spec-side (C6): a record whose `_msg_type` marker, when present, agrees
with its `role` field — the shape the Log Reader produces for well-formed
transcripts, under which popping the marker does not change dispatch. -/
def msgTypeConsistent (m : Record) : Prop :=
  objGet m "_msg_type" = none ∨
    ∃ v, objGet m "_msg_type" = some v ∧ objGet m "role" = some v

/-- Spec-side (C3): the claim's qualification test for a title-providing
record — user role, non-empty extracted content, no non-conversational
marker, trimmed length at least 20. -/
def titleQualifies (msg : Record) : Bool :=
  isStrV (objGet msg "role") "user" &&
    match (extract_content msg).1 with
    | .ok (some c) =>
      c != "" &&
        (!(skip_prefixes.any (fun p => pyStartsWith (pyStrip c) p)) &&
          decide (20 ≤ (pyStrip c).length))
    | _ => false

/-- Spec-side (C3): the title derived from a qualifying record — the
(trimmed) first line, truncated to 47 characters plus an ellipsis when it
exceeds 50 characters. -/
def titleOf (msg : Record) : String :=
  match (extract_content msg).1 with
  | .ok (some c) =>
    let first_line := pyStrip ((pySplit '\n' (pyStrip c)).headD "")
    if 50 < first_line.length then pyTake 47 first_line ++ "..." else first_line
  | _ => ""

/-- A decodable transcript line used by the concrete scenarios. -/
def demoLine : RawLine :=
  .decoded (.obj [("type", Json.str "user"),
    ("message", Json.obj [("role", Json.str "user"),
      ("content", Json.str "Please refactor the login flow now")])])

/-- A fresh triggered-mode world: no marker file yet, transcript present. -/
def demoWorld : HookWorld := ⟨none, fun p => p == "/t.jsonl", [demoLine], "2024-01-02"⟩

/-- A decoded triggered-mode payload. -/
def demoHook : HookData := ⟨"sess42", "/t.jsonl", "/proj"⟩

theorem parse_transcript_go_skip (messages : List Record) (l1 l2 : List RawLine)
    (skip : RawLine) (hskip : skip = .malformed ∨ skip = .blank) :
    parse_transcript_go messages (l1 ++ skip :: l2) =
      parse_transcript_go messages (l1 ++ l2) := by
  induction l1 generalizing messages with
  | nil =>
    rcases hskip with h | h <;> subst h <;> rfl
  | cons a t ih =>
    cases a with
    | blank => simpa [parse_transcript_go] using ih messages
    | malformed => simpa [parse_transcript_go] using ih messages
    | decoded data =>
      cases data with
      | obj fields =>
        simp only [List.cons_append, parse_transcript_go]
        split
        · split
          · split
            · exact ih _
            · rfl
            · exact ih _
          · split
            · exact ih _
            · exact ih _
        · exact ih _
      | null => rfl
      | bool b => rfl
      | num n => rfl
      | str s => rfl
      | arr items => rfl

theorem parse_transcript_go_ok (lines : List RawLine) (messages : List Record)
    (h : ∀ l ∈ lines, okLine l = true) :
    parse_transcript_go messages lines = some (messages ++ lines.filterMap lineRecord) := by
  induction lines generalizing messages with
  | nil => simp [parse_transcript_go]
  | cons a t ih =>
    have ha : okLine a = true := h a (by simp)
    have ht : ∀ l ∈ t, okLine l = true := fun l hl => h l (by simp [hl])
    cases a with
    | blank => simp [parse_transcript_go, lineRecord, ih _ ht]
    | malformed => simp [parse_transcript_go, lineRecord, ih _ ht]
    | decoded data =>
      cases data with
      | obj fields =>
        simp only [parse_transcript_go, lineRecord, List.filterMap_cons]
        split
        · rename_i msg_type heq
          simp only [okLine, heq] at ha
          split
          · rename_i hkind
            split
            · rename_i msg_data hmsg
              simp [hkind, hmsg, ih _ ht]
            · rename_i hmsg
              rw [hkind] at ha
              simp only [if_pos rfl] at ha
              rw [hmsg] at ha
              split at ha <;> simp_all
            · rename_i hmsg
              simp [hkind, hmsg, ih _ ht]
          · rename_i hkind
            split
            · rename_i hkind2
              simp [hkind, hkind2, ih _ ht]
            · rename_i hkind2
              simp [hkind, hkind2, ih _ ht]
        · rename_i hty
          have : (match objGet fields "type" with
              | some (.str msg_type) =>
                if msg_type = "user" || msg_type = "assistant" then
                  match objGet fields "message" with
                  | some (.obj msg_data) => some (setKey msg_data "_msg_type" (.str msg_type))
                  | _ => none
                else if msg_type = "tool_use" || msg_type = "tool_result" then some fields
                else none
              | _ => (none : Option Record)) = none := by
            split
            · rename_i msg_type heq
              exact absurd heq (by intro hc; exact hty _ hc)
            · rfl
          simp [this, ih _ ht]
      | null => simp [okLine] at ha
      | bool b => simp [okLine] at ha
      | num n => simp [okLine] at ha
      | str s => simp [okLine] at ha
      | arr items => simp [okLine] at ha

/-- C1, counterexample: the claim promises that every validly-decodable
record of one of the four kinds elsewhere in the file still appears in the
returned sequence.  A decodable line holding a non-record (`42`) raises
`AttributeError` at `data.get`, the outer handler returns `[]`, and the valid
`tool_use` record preceding it is lost — even though that same record is
returned when it is the only line of the source. -/
theorem C1_reader_counterexample :
    parse_transcript [.decoded (.obj [("type", .str "tool_use"), ("id", .str "x")]),
        .decoded (.num 42)] = [] ∧
    parse_transcript [.decoded (.obj [("type", .str "tool_use"), ("id", .str "x")])] =
      [[("type", Json.str "tool_use"), ("id", Json.str "x")]] :=
  ⟨rfl, rfl⟩

/-- C1, amended: a line that fails to decode as JSON (or is blank) is skipped
silently and reading continues unchanged; provided every decodable line is a
JSON object whose `user`/`assistant` payload (when present) is itself an
object, the parsed sequence is exactly the per-line contributions in file
order; and a source of only undecodable lines parses to the empty sequence
with no escaping exception. -/
theorem C1_reader_amended :
    (∀ (l1 l2 : List RawLine) (skip : RawLine), skip = .malformed ∨ skip = .blank →
      parse_transcript (l1 ++ skip :: l2) = parse_transcript (l1 ++ l2)) ∧
    (∀ lines : List RawLine, (∀ l ∈ lines, okLine l = true) →
      parse_transcript lines = lines.filterMap lineRecord) ∧
    (∀ lines : List RawLine, (∀ l ∈ lines, l = .malformed ∨ l = .blank) →
      parse_transcript lines = []) := by
  refine ⟨fun l1 l2 skip hskip => ?_, fun lines h => ?_, fun lines h => ?_⟩
  · unfold parse_transcript
    rw [parse_transcript_go_skip [] l1 l2 skip hskip]
  · unfold parse_transcript
    rw [parse_transcript_go_ok lines [] h]
    simp
  · unfold parse_transcript
    have hok : ∀ l ∈ lines, okLine l = true := by
      intro l hl
      rcases h l hl with rfl | rfl <;> rfl
    rw [parse_transcript_go_ok lines [] hok]
    simp only [List.nil_append]
    apply List.filterMap_eq_nil_iff.mpr
    intro l hl
    rcases h l hl with rfl | rfl <;> rfl

/-- C1, witness for the amended theorem at concrete inputs. -/
theorem C1_reader_amended_witness :
    (parse_transcript
        ([.decoded (.obj [("type", Json.str "tool_use"), ("id", Json.str "x")])] ++
          RawLine.malformed :: [RawLine.blank]) =
      parse_transcript
        ([.decoded (.obj [("type", Json.str "tool_use"), ("id", Json.str "x")])] ++
          [RawLine.blank])) ∧
    (parse_transcript [.decoded (.obj [("type", Json.str "tool_use"), ("id", Json.str "x")])] =
      [RawLine.decoded (.obj [("type", Json.str "tool_use"), ("id", Json.str "x")])].filterMap
        lineRecord) ∧
    (parse_transcript [.malformed, .blank] = []) := by
  refine ⟨C1_reader_amended.1 _ _ _ (Or.inl rfl), C1_reader_amended.2.1 _ ?_,
    C1_reader_amended.2.2 _ ?_⟩
  · intro l hl
    simp only [List.mem_singleton] at hl
    subst hl
    rfl
  · intro l hl
    simp only [List.mem_cons, List.not_mem_nil, or_false] at hl
    rcases hl with rfl | rfl
    exacts [Or.inl rfl, Or.inr rfl]


theorem objGet_popKey_ne (m : Record) (k key : String) (h : k ≠ key) :
    objGet (popKey m key) k = objGet m k := by
  induction m with
  | nil => rfl
  | cons a rest ih =>
    obtain ⟨ka, va⟩ := a
    by_cases hk : ka = key
    · subst hk
      have hkk : ¬ (ka = k) := fun hc => h (hc ▸ rfl)
      simp [popKey, List.filter_cons, objGet, hkk] at ih ⊢
      exact ih
    · simp only [popKey, List.filter_cons] at ih ⊢
      simp only [bne_iff_ne, ne_eq, hk, not_false_eq_true, if_true, ite_true, decide_not]
      by_cases hka : ka = k
      · subst hka
        simp [objGet, hk]
      · simp [objGet, hka, hk] at ih ⊢
        exact ih

theorem popKey_of_objGet_none (m : Record) (key : String) (h : objGet m key = none) :
    popKey m key = m := by
  induction m with
  | nil => rfl
  | cons a rest ih =>
    obtain ⟨ka, va⟩ := a
    simp only [objGet] at h
    by_cases hk : ka = key
    · simp [hk] at h
    · simp only [if_neg hk] at h
      have h2 := ih h
      simp only [popKey] at h2 ⊢
      simp [List.filter_cons, hk, h2]

theorem extract_content_snd (m : Record) : (extract_content m).2 = popKey m "_msg_type" := rfl

theorem extract_content_preserves (m : Record) (h : objGet m "_msg_type" = none) :
    (extract_content m).2 = m := by
  rw [extract_content_snd, popKey_of_objGet_none m _ h]

theorem extract_tags_go_preserves (msgs : List Record) (acc : String)
    (h : ∀ m ∈ msgs, objGet m "_msg_type" = none) :
    (extract_tags_go acc msgs).2 = msgs := by
  induction msgs generalizing acc with
  | nil => rfl
  | cons msg rest ih =>
    have hm := extract_content_preserves msg (h msg (by simp))
    have hrest : ∀ m ∈ rest, objGet m "_msg_type" = none := fun m hmem => h m (by simp [hmem])
    rcases hec : extract_content msg with ⟨c, m2⟩
    have hm2 : m2 = msg := by rw [hec] at hm; exact hm
    cases c with
    | error e => simp [extract_tags_go, hec, hm2]
    | ok content => simp [extract_tags_go, hec, hm2, ih _ hrest]

theorem extract_tags_snd (msgs : List Record) :
    (extract_tags msgs).2 = (extract_tags_go "" msgs).2 := by
  unfold extract_tags
  rcases extract_tags_go "" msgs with ⟨r, msgs2⟩
  cases r <;> rfl

theorem generate_title_preserves (msgs : List Record) (sid : String)
    (h : ∀ m ∈ msgs, objGet m "_msg_type" = none) :
    (generate_title msgs sid).2 = msgs := by
  induction msgs with
  | nil => rfl
  | cons msg rest ih =>
    have hm := extract_content_preserves msg (h msg (by simp))
    have hrest : ∀ m ∈ rest, objGet m "_msg_type" = none := fun m hmem => h m (by simp [hmem])
    rcases hec : extract_content msg with ⟨c, m2⟩
    have hm2 : m2 = msg := by rw [hec] at hm; exact hm
    by_cases hrole : isStrV (objGet msg "role") "user" = true
    · cases c with
      | error e => simp [generate_title, hrole, hec, hm2]
      | ok content =>
        simp only [generate_title, hrole, if_true, hec, hm2]
        split
        · split
          · simp [ih hrest]
          · split
            · simp [ih hrest]
            · split
              · rfl
              · split
                · rfl
                · simp [ih hrest]
        · simp [ih hrest]
    · simp only [generate_title, hrole]
      simp [ih hrest]

theorem to_markdown_go_preserves (msgs : List Record) (output : List String)
    (current_role : Option String) (current_content : List String)
    (h : ∀ m ∈ msgs, objGet m "_msg_type" = none) :
    (to_markdown_go output current_role current_content msgs).2 = msgs := by
  induction msgs generalizing output current_role current_content with
  | nil => rfl
  | cons msg rest ih =>
    have hm := extract_content_preserves msg (h msg (by simp))
    have hrest : ∀ m ∈ rest, objGet m "_msg_type" = none := fun m hmem => h m (by simp [hmem])
    rcases hec : extract_content msg with ⟨c, m2⟩
    have hm2 : m2 = msg := by rw [hec] at hm; exact hm
    simp only [to_markdown_go]
    split
    · simp [ih _ _ _ hrest]
    · rw [hec]
      cases c with
      | error e => simp [hm2]
      | ok content =>
        simp only [hm2]
        split
        · simp [ih _ _ _ hrest]
        · simp [ih _ _ _ hrest]

theorem to_markdown_preserves (msgs : List Record) (metadata : Metadata)
    (h : ∀ m ∈ msgs, objGet m "_msg_type" = none) :
    (to_markdown msgs metadata).2 = msgs := by
  unfold to_markdown
  have hp := to_markdown_go_preserves msgs (to_markdown_header metadata) none [] h
  rcases hgo : to_markdown_go (to_markdown_header metadata) none [] msgs with ⟨r, msgs2⟩
  rw [hgo] at hp
  cases r with
  | error e => simpa using hp
  | ok p => rcases p with ⟨o2, cc2⟩; simpa using hp

/-- C7, counterexample: a `user` record produced by the Log Reader carries
the reader-added `_msg_type` marker, and content extraction removes it
in place, so the record is not identical before and after extraction. -/
theorem C7_immutability_counterexample :
    parse_transcript [.decoded (.obj [("type", Json.str "user"),
        ("message", Json.obj [("role", Json.str "user"), ("content", Json.str "hello")])])] =
      [[("role", Json.str "user"), ("content", Json.str "hello"),
        ("_msg_type", Json.str "user")]] ∧
    (extract_content [("role", Json.str "user"), ("content", Json.str "hello"),
        ("_msg_type", Json.str "user")]).2 ≠
      [("role", Json.str "user"), ("content", Json.str "hello"),
        ("_msg_type", Json.str "user")] := by
  refine ⟨rfl, fun hc => ?_⟩
  have h2 : ((extract_content [("role", Json.str "user"), ("content", Json.str "hello"),
      ("_msg_type", Json.str "user")]).2).length = 2 := rfl
  rw [hc] at h2
  simp at h2

/-- C7, amended: content extraction changes exactly the reader-added
`_msg_type` field (removing it) and preserves every other field; a record
without `_msg_type` is left completely unchanged by content extraction, and
consequently by title inference, tag inference and rendering. -/
theorem C7_immutability_amended :
    (∀ (m : Record) (k : String), k ≠ "_msg_type" →
      objGet (extract_content m).2 k = objGet m k) ∧
    (∀ m : Record, objGet m "_msg_type" = none → (extract_content m).2 = m) ∧
    (∀ msgs : List Record, (∀ m ∈ msgs, objGet m "_msg_type" = none) →
      (extract_tags msgs).2 = msgs) ∧
    (∀ (msgs : List Record) (sid : String), (∀ m ∈ msgs, objGet m "_msg_type" = none) →
      (generate_title msgs sid).2 = msgs) ∧
    (∀ (msgs : List Record) (metadata : Metadata), (∀ m ∈ msgs, objGet m "_msg_type" = none) →
      (to_markdown msgs metadata).2 = msgs) := by
  refine ⟨fun m k hk => ?_, extract_content_preserves, fun msgs h => ?_,
    generate_title_preserves, to_markdown_preserves⟩
  · rw [extract_content_snd]
    exact objGet_popKey_ne m k _ hk
  · rw [extract_tags_snd]
    exact extract_tags_go_preserves msgs "" h

/-- C7, witness for the amended theorem at a concrete `tool_use` record. -/
theorem C7_immutability_amended_witness :
    objGet (extract_content [("type", Json.str "tool_use"), ("id", Json.str "x")]).2 "id" =
      objGet [("type", Json.str "tool_use"), ("id", Json.str "x")] "id" ∧
    (extract_content [("type", Json.str "tool_use"), ("id", Json.str "x")]).2 =
      [("type", Json.str "tool_use"), ("id", Json.str "x")] ∧
    (extract_tags [[("type", Json.str "tool_use"), ("id", Json.str "x")]]).2 =
      [[("type", Json.str "tool_use"), ("id", Json.str "x")]] ∧
    (generate_title [[("type", Json.str "tool_use"), ("id", Json.str "x")]] "s").2 =
      [[("type", Json.str "tool_use"), ("id", Json.str "x")]] ∧
    (to_markdown [[("type", Json.str "tool_use"), ("id", Json.str "x")]]
        ⟨"t", "2024-01-02", [], "s", "", 1⟩).2 =
      [[("type", Json.str "tool_use"), ("id", Json.str "x")]] := by
  have hone : ∀ m ∈ [[("type", Json.str "tool_use"), ("id", Json.str "x")]],
      objGet m "_msg_type" = none := by
    intro m hm
    simp only [List.mem_singleton] at hm
    subst hm
    rfl
  exact ⟨C7_immutability_amended.1 _ "id" (by decide),
    C7_immutability_amended.2.1 _ rfl,
    C7_immutability_amended.2.2.1 _ hone,
    C7_immutability_amended.2.2.2.1 _ "s" hone,
    C7_immutability_amended.2.2.2.2 _ _ hone⟩


theorem toolResult_foldl (texts : List String) (b : String) :
    (texts.map fun t => Json.obj [("type", Json.str "text"), ("text", Json.str t)]).foldl
      (fun acc item =>
        match item with
        | .obj itf =>
          if typeIs itf "text" then
            acc ++ "```\n" ++ pyStr ((objGet itf "text").getD (.str "")) ++ "\n```\n"
          else acc
        | _ => acc) b =
      b ++ joinAll (texts.map fun t => "```\n" ++ t ++ "\n```\n") := by
  induction texts generalizing b with
  | nil => simp [joinAll]
  | cons t ts ih =>
    simp only [List.map_cons, List.foldl_cons, joinAll]
    rw [ih]
    have htype : typeIs [("type", Json.str "text"), ("text", Json.str t)] "text" = true := rfl
    rw [htype]
    simp only [if_true, objGet, if_neg (by decide : ¬ ("type" = "text")), if_pos rfl,
      Option.getD_some, pyStr]
    simp [String.append_assoc]

/-- C4, counterexample: for a standalone `tool_result` whose content is two
text sub-blocks, the code produces one verbatim block per sub-block (four
fence lines), not the single verbatim block the claim describes (which would
have exactly two fence lines). -/
theorem C4_tool_result_counterexample :
    (extract_content [("type", Json.str "tool_result"), ("tool_use_id", Json.str "toolu_01"),
        ("content", Json.arr [Json.obj [("type", Json.str "text"), ("text", Json.str "alpha")],
          Json.obj [("type", Json.str "text"), ("text", Json.str "beta")]])]).1 =
      .ok (some "**Tool Result**: `toolu_01`\n```\nalpha\n```\n```\nbeta\n```\n") ∧
    ((pySplit '\n' "**Tool Result**: `toolu_01`\n```\nalpha\n```\n```\nbeta\n```\n").filter
        (fun l => l == "```")).length = 4 ∧
    (4 : Nat) ≠ 2 :=
  ⟨rfl, by decide, by decide⟩

/-- C4, amended: a standalone `tool_result` yields a header naming the
originating tool-use identifier followed by, for a plain-string content, that
string in one verbatim block, and, for a sequence of text sub-blocks, one
verbatim block **per** sub-block appended in order (not a single combined
verbatim block). -/
theorem C4_tool_result_amended (id s : String) (texts : List String) :
    extract_content (toolResultStrRec id s) =
      (.ok (some ("**Tool Result**: `" ++ id ++ "`\n" ++ "```\n" ++ s ++ "\n```\n")),
       toolResultStrRec id s) ∧
    extract_content (toolResultBlocksRec id texts) =
      (.ok (some (("**Tool Result**: `" ++ id ++ "`\n") ++
        joinAll (texts.map fun t => "```\n" ++ t ++ "\n```\n"))),
       toolResultBlocksRec id texts) := by
  refine ⟨rfl, ?_⟩
  have step : extract_content (toolResultBlocksRec id texts) =
      (.ok (some ((texts.map fun t =>
          Json.obj [("type", Json.str "text"), ("text", Json.str t)]).foldl
        (fun acc item =>
          match item with
          | .obj itf =>
            if typeIs itf "text" then
              acc ++ "```\n" ++ pyStr ((objGet itf "text").getD (.str "")) ++ "\n```\n"
            else acc
          | _ => acc) ("**Tool Result**: `" ++ id ++ "`\n"))),
       toolResultBlocksRec id texts) := rfl
  rw [step, toolResult_foldl]


theorem dropWhile_head_not (p : Char → Bool) (l : List Char) (a : Char) (t : List Char)
    (h : l.dropWhile p = a :: t) : p a = false := by
  induction l with
  | nil => simp at h
  | cons b r ih =>
    rw [List.dropWhile_cons] at h
    split at h
    · exact ih h
    · rename_i hb
      cases h
      simpa using hb

theorem rdrop_isPrefixOf (p : Char → Bool) (m : List Char) :
    (m.reverse.dropWhile p).reverse <+: m := by
  have h1 : m.reverse.dropWhile p <:+ m.reverse := List.dropWhile_suffix p
  have h2 : (m.reverse.dropWhile p).reverse <+: m.reverse.reverse :=
    List.reverse_prefix.mpr h1
  simpa using h2

theorem stripL_isPrefixOf (l : List Char) : stripL l <+: l.dropWhile ws :=
  rdrop_isPrefixOf ws (l.dropWhile ws)

theorem stripL_head_not_ws (l : List Char) (a : Char) (t : List Char)
    (h : stripL l = a :: t) : ws a = false := by
  have hp : (a :: t) <+: l.dropWhile ws := h ▸ stripL_isPrefixOf l
  obtain ⟨r, hr⟩ := hp
  exact dropWhile_head_not ws l a (t ++ r) (by rw [← hr]; simp)

theorem stripL_cons_ne_nil (a : Char) (t : List Char) (ha : ws a = false) :
    stripL (a :: t) ≠ [] := by
  intro hc
  unfold stripL at hc
  rw [List.dropWhile_cons, if_neg (by simp [ha])] at hc
  rw [List.reverse_eq_nil_iff, List.dropWhile_eq_nil_iff] at hc
  have := hc a (by simp)
  rw [ha] at this
  cases this

theorem splitCh_cons_head (c a : Char) (t : List Char) (ha : ¬ a = c) :
    ∃ u rest, splitCh c (a :: t) = (a :: u) :: rest := by
  rcases h : splitCh c t with _ | ⟨h1, t1⟩
  · refine ⟨[], [], ?_⟩
    unfold splitCh
    rw [if_neg ha, h]
  · refine ⟨h1, t1, ?_⟩
    unfold splitCh
    rw [if_neg ha, h]

theorem string_mk_eq_empty_iff (l : List Char) : (⟨l⟩ : String) = "" ↔ l = [] := by
  constructor
  · intro h
    have := congrArg String.data h
    simpa using this
  · rintro rfl
    rfl

theorem headD_map_mk (ls : List (List Char)) :
    ((ls.map fun l => (⟨l⟩ : String)).headD "") = ⟨ls.headD []⟩ := by
  cases ls <;> rfl

theorem firstLine_ne_empty (c : String) (hm : pyStrip c ≠ "") :
    pyStrip ((pySplit '\n' (pyStrip c)).headD "") ≠ "" := by
  have hm' : stripL c.data ≠ [] := fun hc => hm (string_mk_eq_empty_iff _ |>.mpr hc)
  rcases h : stripL c.data with _ | ⟨a, t⟩
  · exact absurd h hm'
  · have ha : ws a = false := stripL_head_not_ws c.data a t h
    have hanl : ¬ a = '\n' := by
      intro hc
      subst hc
      exact absurd ha (by decide)
    obtain ⟨u, rest, hsplit⟩ := splitCh_cons_head '\n' a t hanl
    have e1 : pySplit '\n' (pyStrip c) =
        ((splitCh '\n' (stripL c.data)).map fun l => (⟨l⟩ : String)) := rfl
    rw [e1, h, hsplit]
    rw [show (((a :: u) :: rest).map fun l => (⟨l⟩ : String)) =
        (⟨a :: u⟩ : String) :: rest.map (fun l => ⟨l⟩) from rfl, List.headD_cons]
    intro hc
    exact stripL_cons_ne_nil a u ha (string_mk_eq_empty_iff (stripL (a :: u)) |>.mp hc)


theorem generate_title_cons_step (msg : Record) (rest : List Record) (sid : String)
    (hne : isStrV (objGet msg "role") "user" = true → (extract_content msg).1 ≠ .error ()) :
    (generate_title (msg :: rest) sid).1 =
      if titleQualifies msg then .ok (titleOf msg) else (generate_title rest sid).1 := by
  by_cases hrole : isStrV (objGet msg "role") "user" = true
  · rcases hec : extract_content msg with ⟨c, m2⟩
    have hc1 : (extract_content msg).1 = c := by rw [hec]
    cases c with
    | error e =>
      cases e
      exact absurd hc1 (hne hrole)
    | ok content =>
      cases content with
      | none =>
        have hq : titleQualifies msg = false := by
          simp [titleQualifies, hc1]
        simp [generate_title, hrole, hec, truthyS, hq]
      | some cs =>
        by_cases hcs : cs = ""
        · subst hcs
          have hq : titleQualifies msg = false := by
            simp [titleQualifies, hc1]
          simp [generate_title, hrole, hec, truthyS, hq]
        · by_cases hpre : skip_prefixes.any (fun p => pyStartsWith (pyStrip cs) p) = true
          · have hq : titleQualifies msg = false := by
              simp [titleQualifies, hc1, hpre]
            simp [generate_title, hrole, hec, truthyS, hcs, hpre, hq]
          · by_cases hlen : (pyStrip cs).length < 20
            · have hq : titleQualifies msg = false := by
                simp [titleQualifies, hc1, hpre, Nat.not_le.mpr hlen]
              simp [generate_title, hrole, hec, truthyS, hcs, hpre, hlen, hq]
            · have hq : titleQualifies msg = true := by
                simp [titleQualifies, hrole, hc1, hcs, hpre, Nat.le_of_not_lt hlen]
              have hto : titleOf msg =
                  (let first_line := pyStrip ((pySplit '\n' (pyStrip cs)).headD "")
                   if 50 < first_line.length then pyTake 47 first_line ++ "..."
                   else first_line) := by
                simp [titleOf, hc1]
              by_cases h50 : 50 < (pyStrip ((pySplit '\n' (pyStrip cs)).headD "")).length
              · rw [List.headD_eq_head?] at hto h50
                simp [generate_title, hrole, hec, truthyS, hcs, hpre, hlen, hq, hto, h50]
              · have hfl : pyStrip ((pySplit '\n' (pyStrip cs)).headD "") ≠ "" := by
                  apply firstLine_ne_empty
                  intro hc
                  rw [hc] at hlen
                  exact hlen (by decide)
                rw [List.headD_eq_head?] at hto h50 hfl
                simp [generate_title, hrole, hec, truthyS, hcs, hpre, hlen, hq, hto, h50, hfl]
  · have hq : titleQualifies msg = false := by
      simp [titleQualifies, hrole]
    simp [generate_title, hrole, hq]

/-- C3, counterexample: the claim describes `generate_title` as total ("if no
Record qualifies, the title is the fixed prefix followed by the first 8
characters of the session identifier"), but a user-role record whose text
block holds a non-string `text` value makes `'\n'.join` raise `TypeError`,
so no title at all is produced. -/
theorem C3_title_counterexample :
    (generate_title [[("role", Json.str "user"),
        ("content", Json.arr [Json.obj [("type", Json.str "text"), ("text", Json.num 5)]])]]
      "abcdefgh").1 = .error () ∧
    ("Conversation " ++ pyTake 8 "abcdefgh") = "Conversation abcdefgh" ∧
    (Except.error () : Except Unit String) ≠ .ok "Conversation abcdefgh" :=
  ⟨rfl, rfl, fun hc => Except.noConfusion hc⟩

/-- C3, amended: provided extraction raises no exception on the user-role
records (e.g. every text field is a string), `generate_title` returns the
trimmed first line of the first user-role record whose extracted content is
non-empty, does not start with a fixed marker, and has trimmed length at
least 20 — truncated to its first 47 characters plus an ellipsis when that
line exceeds 50 characters — and the fixed default otherwise. -/
theorem C3_title_amended (msgs : List Record) (sid : String)
    (h : ∀ m ∈ msgs, isStrV (objGet m "role") "user" = true →
      (extract_content m).1 ≠ .error ()) :
    (generate_title msgs sid).1 =
      .ok (match msgs.find? titleQualifies with
           | some m => titleOf m
           | none => "Conversation " ++ pyTake 8 sid) := by
  induction msgs with
  | nil => rfl
  | cons msg rest ih =>
    have hrest : ∀ m ∈ rest, isStrV (objGet m "role") "user" = true →
        (extract_content m).1 ≠ .error () := fun m hm => h m (by simp [hm])
    rw [generate_title_cons_step msg rest sid (h msg (by simp)), List.find?_cons]
    by_cases hq : titleQualifies msg
    · simp [hq]
    · simp [hq, ih hrest]

/-- C3, witness: the spec's own example — a short greeting followed by a
qualifying request — produces the request's first line as the title. -/
theorem C3_title_amended_witness :
    (generate_title [[("role", Json.str "user"), ("content", Json.str "hi")],
        [("role", Json.str "user"),
         ("content", Json.str "Please refactor the login flow to use middleware")]]
      "sess1234xyz").1 =
      .ok (match [[("role", Json.str "user"), ("content", Json.str "hi")],
          [("role", Json.str "user"),
           ("content", Json.str "Please refactor the login flow to use middleware")]].find?
            titleQualifies with
        | some m => titleOf m
        | none => "Conversation " ++ pyTake 8 "sess1234xyz") := by
  apply C3_title_amended
  intro m hm hrole
  simp only [List.mem_cons, List.not_mem_nil, or_false] at hm
  rcases hm with rfl | rfl
  · intro hc
    rw [show (extract_content [("role", Json.str "user"),
        ("content", Json.str "hi")]).1 = .ok (some "hi") from rfl] at hc
    exact Except.noConfusion hc
  · intro hc
    rw [show (extract_content [("role", Json.str "user"),
        ("content", Json.str "Please refactor the login flow to use middleware")]).1 =
        .ok (some "Please refactor the login flow to use middleware") from rfl] at hc
    exact Except.noConfusion hc


theorem tagsLoop_eq_dedup (kws : List (String × String)) (acc : List String) (atext : String) :
    kws.foldl (fun tags kv =>
        if pyIn kv.1 atext && !(tags.contains kv.2) then tags ++ [kv.2] else tags) acc =
      dedupKeepFirst acc ((kws.filter fun kv => pyIn kv.1 atext).map Prod.snd) := by
  induction kws generalizing acc with
  | nil => rfl
  | cons kv rest ih =>
    simp only [List.foldl_cons, List.filter_cons]
    by_cases hin : pyIn kv.1 atext = true
    · simp only [hin, if_true, List.map_cons, dedupKeepFirst, Bool.true_and]
      by_cases hc : acc.contains kv.2
      · simp only [hc, if_true, Bool.not_true, Bool.and_false, if_false]
        exact ih acc
      · simp only [hc, Bool.not_false, if_false, if_true]
        exact ih (acc ++ [kv.2])
    · simp only [Bool.not_eq_true] at hin
      simp only [hin, Bool.false_and, if_false]
      exact ih acc

theorem mem_dedupKeepFirst (l : List String) (acc : List String) (x : String) :
    x ∈ dedupKeepFirst acc l ↔ x ∈ acc ∨ x ∈ l := by
  induction l generalizing acc with
  | nil => simp [dedupKeepFirst]
  | cons t rest ih =>
    simp only [dedupKeepFirst]
    by_cases hc : acc.contains t
    · have ht : t ∈ acc := List.elem_iff.mp hc
      rw [if_pos hc, ih]
      simp only [List.mem_cons]
      constructor
      · rintro (hx | hx)
        · exact Or.inl hx
        · exact Or.inr (Or.inr hx)
      · rintro (hx | rfl | hx)
        · exact Or.inl hx
        · exact Or.inl ht
        · exact Or.inr hx
    · rw [if_neg hc, ih]
      simp only [List.mem_append, List.mem_singleton, List.mem_cons]
      tauto

theorem dedupKeepFirst_nodup (l : List String) (acc : List String) (hacc : acc.Nodup) :
    (dedupKeepFirst acc l).Nodup := by
  induction l generalizing acc with
  | nil => exact hacc
  | cons t rest ih =>
    simp only [dedupKeepFirst]
    by_cases hc : acc.contains t
    · rw [if_pos hc]
      exact ih acc hacc
    · rw [if_neg hc]
      refine ih (acc ++ [t]) ?_
      have ht : t ∉ acc := fun hmem => hc (List.elem_iff.mpr hmem)
      simp [List.nodup_append, hacc, ht]

/-- C5: whenever tag inference returns a list, that list is the
first-occurrence deduplication of the matched tags in table order, capped at
5 — hence duplicate-free, ordered by the first matching keyword's position in
the fixed table, and of length at most 5. -/
theorem C5_tags_dedup_order_cap (msgs : List Record) (atext : String)
    (h : allTextOf msgs = .ok atext) :
    (extract_tags msgs).1 =
      .ok ((dedupKeepFirst []
        ((keywords.filter fun kv => pyIn kv.1 atext).map Prod.snd)).take 5) ∧
    ∀ tags, (extract_tags msgs).1 = .ok tags → tags.Nodup ∧ tags.length ≤ 5 := by
  have hgo : (extract_tags_go "" msgs).1 = .ok atext := h
  have h1 : (extract_tags msgs).1 =
      .ok ((dedupKeepFirst []
        ((keywords.filter fun kv => pyIn kv.1 atext).map Prod.snd)).take 5) := by
    unfold extract_tags
    rcases hg : extract_tags_go "" msgs with ⟨r, msgs2⟩
    rw [hg] at hgo
    simp only at hgo
    subst hgo
    simp only [tagsLoop, tagsLoop_eq_dedup]
  refine ⟨h1, fun tags htags => ?_⟩
  rw [h1] at htags
  have htags2 : tags = (dedupKeepFirst []
      ((keywords.filter fun kv => pyIn kv.1 atext).map Prod.snd)).take 5 := by
    cases htags
    rfl
  subst htags2
  constructor
  · exact (dedupKeepFirst_nodup _ [] (by simp)).sublist (List.take_sublist 5 _)
  · simp [List.length_take]

/-- C5, witness: content matching `bug`, `fix` and `test` yields the
duplicate-free, table-ordered list `["bug-fix", "testing"]`. -/
theorem C5_tags_dedup_order_cap_witness :
    allTextOf [[("role", Json.str "user"),
        ("content", Json.str "please fix this bug in the test suite")]] =
      .ok "please fix this bug in the test suite " ∧
    (extract_tags [[("role", Json.str "user"),
        ("content", Json.str "please fix this bug in the test suite")]]).1 =
      .ok ((dedupKeepFirst []
        ((keywords.filter fun kv =>
          pyIn kv.1 "please fix this bug in the test suite ").map Prod.snd)).take 5) ∧
    (∀ tags, (extract_tags [[("role", Json.str "user"),
        ("content", Json.str "please fix this bug in the test suite")]]).1 = .ok tags →
      tags.Nodup ∧ tags.length ≤ 5) ∧
    (extract_tags [[("role", Json.str "user"),
        ("content", Json.str "please fix this bug in the test suite")]]).1 =
      .ok ["bug-fix", "testing"] :=
  ⟨rfl,
    (C5_tags_dedup_order_cap [[("role", Json.str "user"),
      ("content", Json.str "please fix this bug in the test suite")]]
      "please fix this bug in the test suite " rfl).1,
    (C5_tags_dedup_order_cap [[("role", Json.str "user"),
      ("content", Json.str "please fix this bug in the test suite")]]
      "please fix this bug in the test suite " rfl).2, rfl⟩

theorem extract_content_stable (m : Record) (h : msgTypeConsistent m) :
    extract_content ((extract_content m).2) =
      ((extract_content m).1, (extract_content m).2) := by
  rcases h with h | ⟨v, h1, h2⟩
  · have hp := extract_content_preserves m h
    conv_lhs => rw [hp]
  · have hmt : objGet (popKey m "_msg_type") "_msg_type" = none := by
      clear h1 h2
      induction m with
      | nil => rfl
      | cons a rest ih =>
        obtain ⟨ka, va⟩ := a
        by_cases hk : ka = "_msg_type"
        · simpa [popKey, List.filter_cons, hk] using ih
        · simpa [popKey, List.filter_cons, hk, objGet] using ih
    have hrole : objGet (popKey m "_msg_type") "role" = some v := by
      rw [objGet_popKey_ne m "role" _ (by decide)]
      exact h2
    have e1 : extract_content m =
        (extractBody v (popKey m "_msg_type"), popKey m "_msg_type") := by
      unfold extract_content
      rw [h1]
      rfl
    have e2 : extract_content (popKey m "_msg_type") =
        (extractBody v (popKey m "_msg_type"), popKey m "_msg_type") := by
      unfold extract_content
      rw [hmt, hrole, popKey_of_objGet_none _ _ hmt]
      rfl
    rw [e1]
    exact e2

theorem extract_tags_go_stable (msgs : List Record)
    (h : ∀ m ∈ msgs, msgTypeConsistent m) (acc : String) :
    extract_tags_go acc (extract_tags_go acc msgs).2 = extract_tags_go acc msgs := by
  induction msgs generalizing acc with
  | nil => rfl
  | cons msg rest ih =>
    have hrest : ∀ m ∈ rest, msgTypeConsistent m := fun m hm => h m (by simp [hm])
    have hst := extract_content_stable msg (h msg (by simp))
    rcases hec : extract_content msg with ⟨c, m2⟩
    rw [hec] at hst
    cases c with
    | error e =>
      simp only [extract_tags_go, hec]
      simp only [extract_tags_go, hst]
    | ok content =>
      simp only [extract_tags_go, hec]
      simp only [extract_tags_go, hst]
      rw [ih hrest]

/-- C6, counterexample: `extract_tags` pops each record's `_msg_type` marker;
for a record whose payload carries no `role` field, the second run therefore
dispatches differently and returns a different tag list. -/
theorem C6_tags_idempotence_counterexample :
    (extract_tags [[("_msg_type", Json.str "user"), ("content", Json.str "test")]]).1 =
      .ok ["testing"] ∧
    (extract_tags ((extract_tags [[("_msg_type", Json.str "user"),
        ("content", Json.str "test")]]).2)).1 = .ok [] ∧
    (["testing"] : List String) ≠ [] :=
  ⟨rfl, rfl, by decide⟩

/-- C6, amended: tag inference is deterministic on equal record values, but
it mutates its input by popping `_msg_type`; rerunning it on the records it
returned yields the same tag list provided every record carrying `_msg_type`
also carries an equal `role` field (as reader-produced records whose payload
role matches the outer kind do).  The second run then also leaves the records
unchanged. -/
theorem C6_tags_idempotence_amended (msgs : List Record)
    (h : ∀ m ∈ msgs, msgTypeConsistent m) :
    (extract_tags ((extract_tags msgs).2)).1 = (extract_tags msgs).1 ∧
    (extract_tags ((extract_tags msgs).2)).2 = (extract_tags msgs).2 := by
  have hs := extract_tags_go_stable msgs h ""
  constructor <;>
    · unfold extract_tags
      rcases hg : extract_tags_go "" msgs with ⟨r, msgs2⟩
      rw [hg] at hs
      cases r <;> simp [hs]

/-- C6, witness: a record whose `_msg_type` agrees with its `role` gives the
same tags on both runs. -/
theorem C6_tags_idempotence_amended_witness :
    (extract_tags ((extract_tags [[("_msg_type", Json.str "user"),
        ("role", Json.str "user"), ("content", Json.str "fix the bug")]]).2)).1 =
      (extract_tags [[("_msg_type", Json.str "user"), ("role", Json.str "user"),
        ("content", Json.str "fix the bug")]]).1 ∧
    (extract_tags ((extract_tags [[("_msg_type", Json.str "user"),
        ("role", Json.str "user"), ("content", Json.str "fix the bug")]]).2)).2 =
      (extract_tags [[("_msg_type", Json.str "user"), ("role", Json.str "user"),
        ("content", Json.str "fix the bug")]]).2 := by
  apply C6_tags_idempotence_amended
  intro m hm
  simp only [List.mem_singleton] at hm
  subst hm
  exact Or.inr ⟨Json.str "user", rfl, rfl⟩

/-- C10, counterexample: `deploy` occurs as a substring of the content and
maps to `deployment`, yet `deployment` is not in the returned list — the
5-tag cap excludes it, so "a tag is included whenever its keyword occurs"
fails as stated. -/
theorem C10_substring_counterexample :
    allTextOf [[("role", Json.str "user"),
        ("content", Json.str "bug feature refactor test review deploy")]] =
      .ok "bug feature refactor test review deploy " ∧
    pyIn "deploy" "bug feature refactor test review deploy " = true ∧
    ("deploy", "deployment") ∈ keywords ∧
    (extract_tags [[("role", Json.str "user"),
        ("content", Json.str "bug feature refactor test review deploy")]]).1 =
      .ok ["bug-fix", "feature-development", "refactoring", "testing", "code-review"] ∧
    "deployment" ∉ ["bug-fix", "feature-development", "refactoring", "testing", "code-review"] :=
  ⟨rfl, rfl, by decide, rfl, by decide⟩

/-- C10, amended: matching is raw substring containment of the lower-cased
concatenation — a tag enters the uncapped scan result exactly when some
keyword mapping to it occurs as a contiguous substring (also inside longer
words, e.g. `test` in `latest` and `api` in `rapid`) — and the returned list
is that scan result capped at 5 tags. -/
theorem C10_substring_amended (msgs : List Record) (atext : String)
    (h : allTextOf msgs = .ok atext) :
    (∀ t : String, t ∈ tagsLoop atext ↔ ∃ k, (k, t) ∈ keywords ∧ pyIn k atext = true) ∧
    (extract_tags msgs).1 = .ok ((tagsLoop atext).take 5) ∧
    pyIn "test" (pyLower "the latest") = true ∧
    pyIn "api" (pyLower "rapid") = true := by
  refine ⟨fun t => ?_, ?_, rfl, rfl⟩
  · rw [tagsLoop, tagsLoop_eq_dedup, mem_dedupKeepFirst]
    simp only [List.not_mem_nil, false_or, List.mem_map, List.mem_filter]
    constructor
    · rintro ⟨⟨k, t'⟩, ⟨hmem, hin⟩, rfl⟩
      exact ⟨k, hmem, hin⟩
    · rintro ⟨k, hmem, hin⟩
      exact ⟨(k, t), ⟨hmem, hin⟩, rfl⟩
  · have hgo : (extract_tags_go "" msgs).1 = .ok atext := h
    unfold extract_tags
    rcases hg : extract_tags_go "" msgs with ⟨r, msgs2⟩
    rw [hg] at hgo
    simp only at hgo
    subst hgo
    rfl

/-- C10, witness: for content `"the latest rapid changes"` the substring
matches `test` (inside `latest`) and `api` (inside `rapid`) produce exactly
the tags `["testing", "api"]`. -/
theorem C10_substring_amended_witness :
    (∀ t : String, t ∈ tagsLoop "the latest rapid changes " ↔
      ∃ k, (k, t) ∈ keywords ∧ pyIn k "the latest rapid changes " = true) ∧
    (extract_tags [[("role", Json.str "user"),
        ("content", Json.str "the latest rapid changes")]]).1 =
      .ok ((tagsLoop "the latest rapid changes ").take 5) ∧
    (extract_tags [[("role", Json.str "user"),
        ("content", Json.str "the latest rapid changes")]]).1 = .ok ["testing", "api"] := by
  have h := C10_substring_amended [[("role", Json.str "user"),
    ("content", Json.str "the latest rapid changes")]] "the latest rapid changes " rfl
  exact ⟨h.1, h.2.1, rfl⟩


/-- C2: for every existing index whose lines contain the section marker, one
call inserts exactly the new entry line two lines below the first marker line
(list-insert semantics), keeping every pre-existing line unchanged and in
order; and starting from the absent file (fixed header), two insertions leave
the second-inserted entry as the first item directly under the section
header, regardless of the entries' dates. -/
theorem C2_index_insertion (content : List String) (sid : String) (meta : Metadata) (i : Nat)
    (h : findMarkerIdx content = some i) :
    (update_index (some content) sid meta =
      content.take (i + 2) ++ indexEntry sid meta :: content.drop (i + 2)) ∧
    ∀ (sid1 sid2 : String) (m1 m2 : Metadata),
      update_index (some (update_index none sid1 m1)) sid2 m2 =
        initial_index ++ [indexEntry sid2 m2, indexEntry sid1 m1] := by
  constructor
  · have e : update_index (some content) sid meta =
        pyInsertAt content
          (match findMarkerIdx content with
           | some j => j + 2
           | none => content.length) (indexEntry sid meta) := rfl
    rw [e, h]
    rfl
  · intro sid1 sid2 m1 m2
    rfl

/-- C2, witness: inserting into the fixed header (marker at line 4) puts the
entry at position 6, and a second insertion lands directly under the header,
above the first. -/
theorem C2_index_insertion_witness :
    (update_index (some initial_index) "s1" ⟨"T1", "2024-01-02", [], "s1", "", 3⟩ =
      initial_index.take 6 ++
        indexEntry "s1" ⟨"T1", "2024-01-02", [], "s1", "", 3⟩ :: initial_index.drop 6) ∧
    update_index (some (update_index none "s1" ⟨"T1", "2024-01-02", [], "s1", "", 3⟩)) "s2"
        ⟨"T2", "2023-05-06", [], "s2", "", 1⟩ =
      initial_index ++ [indexEntry "s2" ⟨"T2", "2023-05-06", [], "s2", "", 1⟩,
        indexEntry "s1" ⟨"T1", "2024-01-02", [], "s1", "", 3⟩] :=
  ⟨(C2_index_insertion initial_index "s1" ⟨"T1", "2024-01-02", [], "s1", "", 3⟩ 4 rfl).1,
   (C2_index_insertion initial_index "s1" ⟨"T1", "2024-01-02", [], "s1", "", 3⟩ 4 rfl).2
     "s1" "s2" ⟨"T1", "2024-01-02", [], "s1", "", 3⟩ ⟨"T2", "2023-05-06", [], "s2", "", 1⟩⟩

theorem isPrefixL_self_append (l r : List Char) : isPrefixL l (l ++ r) = true := by
  induction l with
  | nil => rfl
  | cons a t ih => simp [isPrefixL, ih]

theorem isSubstrL_of_isPrefixL (sub l : List Char) (h : isPrefixL sub l = true) :
    isSubstrL sub l = true := by
  cases l with
  | nil =>
    cases sub with
    | nil => rfl
    | cons a t => simp [isPrefixL] at h
  | cons b t => simp [isSubstrL, h]

theorem isSubstrL_append_left (sub x l : List Char) (h : isSubstrL sub l = true) :
    isSubstrL sub (x ++ l) = true := by
  induction x with
  | nil => simpa using h
  | cons a t ih => simp [isSubstrL, ih]

theorem pyIn_append_self (x sid nl : String) : pyIn sid (x ++ sid ++ nl) = true := by
  unfold pyIn
  rw [String.data_append, String.data_append, List.append_assoc]
  exact isSubstrL_append_left _ _ _
    (isSubstrL_of_isPrefixL _ _ (isPrefixL_self_append sid.data nl.data))

/-- C8, counterexample: the marker file holds one identifier per line, and
`abcdef` is recorded on no line of `"abcdef123\n"`; the log source exists and
parses to a record; yet the invocation skips the pipeline, because the code
tests `session_id in f.read()` — substring containment, not per-line
membership. -/
theorem C8_trigger_guard_counterexample :
    ((triggeredMain (some ⟨"abcdef", "/t.jsonl", "/proj"⟩)
        ⟨some "abcdef123\n", fun p => p == "/t.jsonl",
         [.decoded (.obj [("type", Json.str "user"),
           ("message", Json.obj [("role", Json.str "user"),
             ("content", Json.str "Please refactor the login flow now")])])],
         "2024-01-02"⟩).ranPipeline = false) ∧
    "abcdef" ∉ pyLines "abcdef123\n" ∧
    ((fun p => p == "/t.jsonl") "/t.jsonl" = true) ∧
    parse_transcript [.decoded (.obj [("type", Json.str "user"),
      ("message", Json.obj [("role", Json.str "user"),
        ("content", Json.str "Please refactor the login flow now")])])] ≠ [] ∧
    ("abcdef" : String) ≠ "" ∧ ("/proj" : String) ≠ "" := by
  refine ⟨rfl, by decide, rfl, ?_, by decide, by decide⟩
  intro hc
  have h2 : (parse_transcript [.decoded (.obj [("type", Json.str "user"),
      ("message", Json.obj [("role", Json.str "user"),
        ("content", Json.str "Please refactor the login flow now")])])]).length = 1 := rfl
  rw [hc] at h2
  exact absurd h2 (by decide)

/-- C8, amended: with a decodable payload carrying a session identifier and
working directory, the pipeline runs iff the identifier is not a substring of
the marker file's content, the transcript path is non-empty, and that path
exists; a substring hit exits immediately with code 0, writing nothing; and
after any first invocation that completed with code 0, a second invocation
with the same identifier never runs the pipeline and exits 0. -/
theorem C8_trigger_guard_amended (hd : HookData) (w : HookWorld)
    (hsid : hd.session_id ≠ "") (hcwd : hd.cwd ≠ "") :
    ((triggeredMain (some hd) w).ranPipeline = true ↔
      (¬ (∃ content, w.stateContent = some content ∧ pyIn hd.session_id content = true) ∧
        hd.transcript_path ≠ "" ∧ w.pathExists hd.transcript_path = true)) ∧
    (∀ content, w.stateContent = some content → pyIn hd.session_id content = true →
      triggeredMain (some hd) w = ⟨0, false, false, w.stateContent⟩) ∧
    ((triggeredMain (some hd) w).exitCode = 0 →
      (triggeredMain (some hd)
          {w with stateContent := (triggeredMain (some hd) w).stateAfter}).ranPipeline =
        false ∧
      (triggeredMain (some hd)
          {w with stateContent := (triggeredMain (some hd) w).stateAfter}).exitCode = 0) := by
  have hA : (hd.session_id == "" || hd.cwd == "") = false := by
    simp [hsid, hcwd]
  have hsub : ∀ st : Option String,
      (match st with
       | some content => pyIn hd.session_id content
       | none => false) = true ↔
      ∃ content, st = some content ∧ pyIn hd.session_id content = true := by
    intro st
    cases st with
    | none => simp
    | some c => simp
  have happ : ∀ st : Option String,
      pyIn hd.session_id (appendState st hd.session_id) = true :=
    fun st => pyIn_append_self _ _ _
  by_cases hB : (match w.stateContent with
      | some content => pyIn hd.session_id content
      | none => false) = true
  · -- already recorded (as a substring): immediate exit 0
    have hout : triggeredMain (some hd) w = ⟨0, false, false, w.stateContent⟩ := by
      simp only [triggeredMain]
      rw [hA]
      simp only [Bool.false_eq_true, if_false, hB, if_true]
    refine ⟨?_, fun content hc hin => hout, fun _ => ?_⟩
    · rw [hout]
      simp only [Bool.false_eq_true, false_iff]
      rintro ⟨hnot, -⟩
      exact hnot ((hsub w.stateContent).mp hB)
    · have hst : (triggeredMain (some hd) w).stateAfter = w.stateContent := by
        rw [hout]
      rw [hst]
      have hw : ({w with stateContent := w.stateContent} : HookWorld) = w := rfl
      rw [hw, hout]
      exact ⟨rfl, rfl⟩
  · -- not recorded: guard on the transcript path
    by_cases hC : (hd.transcript_path != "" && w.pathExists hd.transcript_path) = true
    · by_cases hD : (!(parse_transcript w.transcriptLines).isEmpty) = true
      · rcases hE : pipelineResult (parse_transcript w.transcriptLines) hd.session_id hd.cwd
            w.today with he | hok
        · -- pipeline raises: exit 1, marker file untouched
          have hout : triggeredMain (some hd) w = ⟨1, true, false, w.stateContent⟩ := by
            simp only [triggeredMain]
            rw [hA]
            simp only [Bool.false_eq_true, if_false, hB, if_true, hC, hD, hE]
          refine ⟨?_, fun content hc hin => absurd ((hsub w.stateContent).mpr
            ⟨content, hc, hin⟩) hB, fun hzero => ?_⟩
          · rw [hout]
            simp only [true_iff]
            refine ⟨fun hex => hB ((hsub w.stateContent).mpr hex), ?_, ?_⟩
            · have := (Bool.and_eq_true _ _).mp hC
              simpa using this.1
            · exact ((Bool.and_eq_true _ _).mp hC).2
          · rw [hout] at hzero
            simp at hzero
        · -- pipeline succeeds: exit 0, identifier appended
          have hout : triggeredMain (some hd) w =
              ⟨0, true, true, some (appendState w.stateContent hd.session_id)⟩ := by
            simp only [triggeredMain]
            rw [hA]
            simp only [Bool.false_eq_true, if_false, hB, if_true, hC, hD, hE]
          refine ⟨?_, fun content hc hin => absurd ((hsub w.stateContent).mpr
            ⟨content, hc, hin⟩) hB, fun _ => ?_⟩
          · rw [hout]
            simp only [true_iff]
            refine ⟨fun hex => hB ((hsub w.stateContent).mpr hex), ?_, ?_⟩
            · have := (Bool.and_eq_true _ _).mp hC
              simpa using this.1
            · exact ((Bool.and_eq_true _ _).mp hC).2
          · have hst : (triggeredMain (some hd) w).stateAfter =
                some (appendState w.stateContent hd.session_id) := by rw [hout]
            rw [hst]
            have hout2 : triggeredMain (some hd)
                {w with stateContent := some (appendState w.stateContent hd.session_id)} =
                ⟨0, false, false, some (appendState w.stateContent hd.session_id)⟩ := by
              simp only [triggeredMain]
              rw [hA]
              simp only [Bool.false_eq_true, if_false]
              rw [if_pos (happ w.stateContent)]
            rw [hout2]
            exact ⟨rfl, rfl⟩
      · -- transcript parses to nothing: still exit 0 and append
        have hout : triggeredMain (some hd) w =
            ⟨0, true, false, some (appendState w.stateContent hd.session_id)⟩ := by
          simp only [triggeredMain]
          rw [hA]
          simp only [Bool.false_eq_true, if_false, hB, if_true, hC, hD]
        refine ⟨?_, fun content hc hin => absurd ((hsub w.stateContent).mpr
          ⟨content, hc, hin⟩) hB, fun _ => ?_⟩
        · rw [hout]
          simp only [true_iff]
          refine ⟨fun hex => hB ((hsub w.stateContent).mpr hex), ?_, ?_⟩
          · have := (Bool.and_eq_true _ _).mp hC
            simpa using this.1
          · exact ((Bool.and_eq_true _ _).mp hC).2
        · have hst : (triggeredMain (some hd) w).stateAfter =
              some (appendState w.stateContent hd.session_id) := by rw [hout]
          rw [hst]
          have hout2 : triggeredMain (some hd)
              {w with stateContent := some (appendState w.stateContent hd.session_id)} =
              ⟨0, false, false, some (appendState w.stateContent hd.session_id)⟩ := by
            simp only [triggeredMain]
            rw [hA]
            simp only [Bool.false_eq_true, if_false]
            rw [if_pos (happ w.stateContent)]
          rw [hout2]
          exact ⟨rfl, rfl⟩
    · -- no usable transcript path: exit 0 and append
      have hout : triggeredMain (some hd) w =
          ⟨0, false, false, some (appendState w.stateContent hd.session_id)⟩ := by
        simp only [triggeredMain]
        rw [hA]
        simp only [Bool.false_eq_true, if_false, hB, if_true, hC]
      refine ⟨?_, fun content hc hin => absurd ((hsub w.stateContent).mpr
        ⟨content, hc, hin⟩) hB, fun _ => ?_⟩
      · rw [hout]
        simp only [Bool.false_eq_true, false_iff]
        rintro ⟨-, hpath, hex⟩
        apply hC
        simp only [Bool.and_eq_true, bne_iff_ne, ne_eq]
        exact ⟨by simpa using hpath, hex⟩
      · have hst : (triggeredMain (some hd) w).stateAfter =
            some (appendState w.stateContent hd.session_id) := by rw [hout]
        rw [hst]
        have hout2 : triggeredMain (some hd)
            {w with stateContent := some (appendState w.stateContent hd.session_id)} =
            ⟨0, false, false, some (appendState w.stateContent hd.session_id)⟩ := by
          simp only [triggeredMain]
          rw [hA]
          simp only [Bool.false_eq_true, if_false]
          rw [if_pos (happ w.stateContent)]
        rw [hout2]
        exact ⟨rfl, rfl⟩

/-- C8, witness: a fresh marker file, existing transcript, and valid payload
run the pipeline; after that first invocation exits 0, re-triggering with the
same identifier does not run the pipeline again. -/
theorem C8_trigger_guard_amended_witness :
    ((triggeredMain (some demoHook) demoWorld).ranPipeline = true ↔
      (¬ (∃ content, demoWorld.stateContent = some content ∧
          pyIn demoHook.session_id content = true) ∧
        demoHook.transcript_path ≠ "" ∧
        demoWorld.pathExists demoHook.transcript_path = true)) ∧
    ((triggeredMain (some demoHook) demoWorld).exitCode = 0 →
      (triggeredMain (some demoHook)
        {demoWorld with
          stateContent :=
            (triggeredMain (some demoHook) demoWorld).stateAfter}).ranPipeline = false) :=
  ⟨(C8_trigger_guard_amended demoHook demoWorld (by decide) (by decide)).1,
   fun hz =>
    ((C8_trigger_guard_amended demoHook demoWorld (by decide) (by decide)).2.2 hz).1⟩

/-- C9, counterexample: direct mode with the required `--session-id` missing
exits through argparse with code 2, not the claimed 1. -/
theorem C9_exit_codes_counterexample :
    directMain ⟨none, some "/t", some "/o", none⟩ [] "2024-01-02" = 2 ∧ (2 : Nat) ≠ 1 :=
  ⟨rfl, by decide⟩

/-- C9, amended: exit codes are — triggered mode: 1 exactly when the stdin
payload fails to decode, a required field (session identifier / working
directory) is missing, or the pipeline raises, and 0 otherwise; direct mode:
2 (argparse) when a required argument is missing, else 1 exactly when the
parsed record set is empty or the pipeline raises, and 0 otherwise. -/
theorem C9_exit_codes_amended :
    (∀ w, (triggeredMain none w).exitCode = 1) ∧
    (∀ (hd : HookData) (w : HookWorld), (hd.session_id = "" ∨ hd.cwd = "") →
      (triggeredMain (some hd) w).exitCode = 1) ∧
    (∀ (hd : HookData) (w : HookWorld), hd.session_id ≠ "" → hd.cwd ≠ "" →
      ((triggeredMain (some hd) w).exitCode = 1 ↔
        ¬ (∃ content, w.stateContent = some content ∧ pyIn hd.session_id content = true) ∧
          hd.transcript_path ≠ "" ∧ w.pathExists hd.transcript_path = true ∧
          parse_transcript w.transcriptLines ≠ [] ∧
          pipelineResult (parse_transcript w.transcriptLines) hd.session_id hd.cwd w.today =
            .error ())) ∧
    (∀ (a : DirectArgs) (lines : List RawLine) (today : String),
      (a.session_id = none ∨ a.transcript = none ∨ a.output = none) →
      directMain a lines today = 2) ∧
    (∀ (sid t o : String) (cwd : Option String) (lines : List RawLine) (today : String),
      (parse_transcript lines = [] → directMain ⟨some sid, some t, some o, cwd⟩ lines today = 1) ∧
      (∀ md, parse_transcript lines ≠ [] →
        pipelineResult (parse_transcript lines) sid (cwd.getD "") today = .ok md →
        directMain ⟨some sid, some t, some o, cwd⟩ lines today = 0) ∧
      (parse_transcript lines ≠ [] →
        pipelineResult (parse_transcript lines) sid (cwd.getD "") today = .error () →
        directMain ⟨some sid, some t, some o, cwd⟩ lines today = 1)) := by
  refine ⟨fun w => rfl, fun hd w h => ?_, fun hd w hsid hcwd => ?_, fun a lines today h => ?_,
    fun sid t o cwd lines today => ?_⟩
  · simp only [triggeredMain]
    rcases h with h | h <;> simp [h]
  · have hA : (hd.session_id == "" || hd.cwd == "") = false := by simp [hsid, hcwd]
    have hsub : ∀ st : Option String,
        (match st with
         | some content => pyIn hd.session_id content
         | none => false) = true ↔
        ∃ content, st = some content ∧ pyIn hd.session_id content = true := by
      intro st
      cases st with
      | none => simp
      | some c => simp
    simp only [triggeredMain]
    rw [hA]
    simp only [Bool.false_eq_true, if_false]
    by_cases hB : (match w.stateContent with
        | some content => pyIn hd.session_id content
        | none => false) = true
    · rw [if_pos hB]
      simp only [HookOutcome.exitCode]
      constructor
      · intro h01
        exact absurd h01 (by decide)
      · rintro ⟨hnot, _⟩
        exact absurd ((hsub w.stateContent).mp hB) hnot
    · rw [if_neg hB]
      by_cases hC : (hd.transcript_path != "" && w.pathExists hd.transcript_path) = true
      · rw [if_pos hC]
        by_cases hD : (!(parse_transcript w.transcriptLines).isEmpty) = true
        · rw [if_pos hD]
          rcases hE : pipelineResult (parse_transcript w.transcriptLines) hd.session_id hd.cwd
              w.today with he | hok
          · cases he
            constructor
            · intro _
              refine ⟨fun hex => hB ((hsub w.stateContent).mpr hex), ?_, ?_, ?_, rfl⟩
              · have := (Bool.and_eq_true _ _).mp hC
                simpa using this.1
              · exact ((Bool.and_eq_true _ _).mp hC).2
              · simpa using hD
            · intro _
              rfl
          · constructor
            · intro h01
              simp at h01
            · rintro ⟨_, _, _, _, hcontra⟩
              exact Except.noConfusion hcontra
        · rw [if_neg hD]
          simp only [HookOutcome.exitCode]
          constructor
          · intro h01
            exact absurd h01 (by decide)
          · rintro ⟨_, _, _, hne, _⟩
            have hemp : (parse_transcript w.transcriptLines).isEmpty = true := by
              cases hbb : (parse_transcript w.transcriptLines).isEmpty with
              | true => rfl
              | false => exact absurd (by rw [hbb]; rfl) hD
            exact absurd (List.isEmpty_iff.mp hemp) hne
      · rw [if_neg hC]
        simp only [HookOutcome.exitCode]
        constructor
        · intro h01
          exact absurd h01 (by decide)
        · rintro ⟨_, hpath, hex, _⟩
          refine absurd ?_ hC
          simp only [Bool.and_eq_true, bne_iff_ne, ne_eq]
          exact ⟨by simpa using hpath, hex⟩
  · unfold directMain
    rcases a with ⟨s1, s2, s3, s4⟩
    rcases h with h | h | h <;> subst h
    · rfl
    · cases s1 <;> rfl
    · cases s1 <;> cases s2 <;> rfl
  · refine ⟨fun hnil => ?_, fun md hne hok => ?_, fun hne herr => ?_⟩
    · show (if (parse_transcript lines).isEmpty = true then (1 : Nat)
          else match pipelineResult (parse_transcript lines) sid (cwd.getD "") today with
            | .ok _ => 0
            | .error _ => 1) = 1
      rw [if_pos (List.isEmpty_iff.mpr hnil)]
    · show (if (parse_transcript lines).isEmpty = true then (1 : Nat)
          else match pipelineResult (parse_transcript lines) sid (cwd.getD "") today with
            | .ok _ => 0
            | .error _ => 1) = 0
      rw [if_neg (fun hc => hne (List.isEmpty_iff.mp hc)), hok]
    · show (if (parse_transcript lines).isEmpty = true then (1 : Nat)
          else match pipelineResult (parse_transcript lines) sid (cwd.getD "") today with
            | .ok _ => 0
            | .error _ => 1) = 1
      rw [if_neg (fun hc => hne (List.isEmpty_iff.mp hc)), herr]


/-- C9, witness for the amended exit-code characterization at concrete
invocations of both modes. -/
theorem C9_exit_codes_amended_witness :
    (triggeredMain none demoWorld).exitCode = 1 ∧
    (triggeredMain (some ⟨"", "/t.jsonl", "/proj"⟩) demoWorld).exitCode = 1 ∧
    ((triggeredMain (some demoHook) demoWorld).exitCode = 1 ↔
      ¬ (∃ content, demoWorld.stateContent = some content ∧
          pyIn demoHook.session_id content = true) ∧
        demoHook.transcript_path ≠ "" ∧
        demoWorld.pathExists demoHook.transcript_path = true ∧
        parse_transcript demoWorld.transcriptLines ≠ [] ∧
        pipelineResult (parse_transcript demoWorld.transcriptLines) demoHook.session_id
          demoHook.cwd demoWorld.today = .error ()) ∧
    directMain ⟨some "s", none, some "/o", none⟩ [] "2024-01-02" = 2 ∧
    directMain ⟨some "s", some "/t", some "/o", none⟩ [] "2024-01-02" = 1 :=
  ⟨C9_exit_codes_amended.1 demoWorld,
   C9_exit_codes_amended.2.1 ⟨"", "/t.jsonl", "/proj"⟩ demoWorld (Or.inl rfl),
   C9_exit_codes_amended.2.2.1 demoHook demoWorld (by decide) (by decide),
   C9_exit_codes_amended.2.2.2.1 ⟨some "s", none, some "/o", none⟩ [] "2024-01-02"
     (Or.inr (Or.inl rfl)),
   (C9_exit_codes_amended.2.2.2.2 "s" "/t" "/o" none [] "2024-01-02").1 rfl⟩

end ClaudeHistory
